import Mathlib

/-!
Shallow embedding of `src/Canvas.py`: a minimal layered raster compositor
(Color / Rectangle / Canvas) and a hierarchical timing facility
(Log / Telemetry).  Python ints are modelled as `ℤ`, Python floats as `ℚ`,
Python exceptions as `Except PyErr`.
-/

/-- Python exceptions that the modelled code can raise, plus the spec's
`NoSamples` condition (which does not occur in the source) so that claims
about it can be stated. -/
inductive PyErr where
  | zeroDivisionError : PyErr
  | valueError : PyErr
  | noSamples : PyErr
deriving DecidableEq, Repr

/-- Python `int(x)` on a float/rational: truncation toward zero. -/
def pyInt (q : ℚ) : ℤ :=
  if q < 0 then ⌈q⌉ else ⌊q⌋

/-- `Color.__init__` (Canvas.py line 120): red, green, blue channels are
Python ints, alpha a Python float; defaults are 255, 255, 255, 1.0. -/
structure Color where
  red : ℤ
  green : ℤ
  blue : ℤ
  alpha : ℚ
deriving DecidableEq, Repr

/-- The default color `Color()` = white, fully opaque (line 120 defaults). -/
def Color.default : Color :=
  ⟨255, 255, 255, 1⟩

/-- The `rgb` property (line 130): the channel triple. -/
def Color.rgb (c : Color) : ℤ × ℤ × ℤ :=
  (c.red, c.green, c.blue)

/-- `Color.blend` (lines 153-158): per channel
`int(self.channel * self.alpha + other.channel * (1 - self.alpha))`;
the result is `Color(red, green, blue)`, whose alpha defaults to 1.0. -/
def Color.blend (self other : Color) : Color :=
  { red := pyInt ((self.red : ℚ) * self.alpha + (other.red : ℚ) * (1 - self.alpha))
    green := pyInt ((self.green : ℚ) * self.alpha + (other.green : ℚ) * (1 - self.alpha))
    blue := pyInt ((self.blue : ℚ) * self.alpha + (other.blue : ℚ) * (1 - self.alpha))
    alpha := 1 }

/-- Value of a hex digit character (0-9, a-f, A-F), as accepted by Python
`int(s, 16)`; other characters map to 0 (they are rejected by `pyIntHex`
before this is consulted). -/
def hexVal (c : Char) : ℕ :=
  if 48 ≤ c.toNat ∧ c.toNat ≤ 57 then c.toNat - 48
  else if 97 ≤ c.toNat ∧ c.toNat ≤ 102 then c.toNat - 87
  else if 65 ≤ c.toNat ∧ c.toNat ≤ 70 then c.toNat - 55
  else 0

/-- Whether a character is a hex digit (0-9, a-f, A-F). -/
def isHexDig (c : Char) : Bool :=
  decide ((48 ≤ c.toNat ∧ c.toNat ≤ 57) ∨ (97 ≤ c.toNat ∧ c.toNat ≤ 102) ∨
    (65 ≤ c.toNat ∧ c.toNat ≤ 70))

/-- Python `int(s, 16)` on a nonempty all-hex-digit string; raises
`ValueError` otherwise. -/
def pyIntHex (ds : List Char) : Except PyErr ℕ :=
  if ds ≠ [] ∧ ds.all isHexDig then
    Except.ok (ds.foldl (fun acc c => 16 * acc + hexVal c) 0)
  else Except.error PyErr.valueError

/-- The lowercase hex digit for a value 0..15, as produced by format `x`. -/
def hexChar (n : ℕ) : Char :=
  if n < 10 then Char.ofNat (48 + n) else Char.ofNat (87 + n)

/-- The lowercase hex digits of a natural number, most significant first. -/
def natHexDigits (n : ℕ) : List Char :=
  if _h : n < 16 then
    hexChar n :: []
  else
    natHexDigits (n / 16) ++ (hexChar (n % 16) :: [])
decreasing_by exact Nat.div_lt_self (by omega) (by omega)

/-- Python format `{:02x}`: lowercase hex, zero-padded on the left to
width 2. -/
def format02x (n : ℕ) : List Char :=
  List.replicate (2 - (natHexDigits n).length) '0' ++ natHexDigits n

/-- The `hex` property getter (lines 137-139):
`'#{:02x}{:02x}{:02x}'.format(red, green, blue)`, modelled for the
nonnegative channels the format produces two digits for. -/
def Color.toHex (c : Color) : List Char :=
  '#' :: (format02x c.red.toNat ++ format02x c.green.toNat ++ format02x c.blue.toNat)

/-- The `hex` property setter (lines 141-151): a 7-character string sets the
channels from the three 2-digit slices, a 4-character string from each digit
doubled, and any other length leaves the color unchanged. -/
def Color.setHex (c : Color) (s : List Char) : Except PyErr Color :=
  if s.length = 7 then do
    let r ← pyIntHex ((s.drop 1).take 2)
    let g ← pyIntHex ((s.drop 3).take 2)
    let b ← pyIntHex ((s.drop 5).take 2)
    pure { c with red := (r : ℤ), green := (g : ℤ), blue := (b : ℤ) }
  else if s.length = 4 then do
    let r ← pyIntHex (s.getD 1 ' ' :: s.getD 1 ' ' :: [])
    let g ← pyIntHex (s.getD 2 ' ' :: s.getD 2 ' ' :: [])
    let b ← pyIntHex (s.getD 3 ' ' :: s.getD 3 ' ' :: [])
    pure { c with red := (r : ℤ), green := (g : ℤ), blue := (b : ℤ) }
  else
    pure c

/-- The pixel grid `canvas.pixels`: a row-major list of rows of colors. -/
abbrev Grid := List (List Color)

/-- Reading `canvas.pixels[y][x]` (for the nonnegative in-range indices the
claims quantify over; out-of-range reads yield the default color). -/
def getPixel (g : Grid) (x y : ℤ) : Color :=
  (g.getD y.toNat []).getD x.toNat Color.default

/-- Writing `canvas.pixels[y][x] = v` (out-of-range writes are dropped;
the claims only exercise in-range writes). -/
def setPixel (g : Grid) (x y : ℤ) (v : Color) : Grid :=
  g.set y.toNat ((g.getD y.toNat []).set x.toNat v)

/-- `Canvas.__init__` (lines 88-92): width, height and the pixel grid.
The drawable list and telemetry are modelled separately. -/
structure Canvas where
  width : ℤ
  height : ℤ
  pixels : Grid

/-- `Rectangle` (lines 167-176): position and size set by `__init__`;
`background_color` defaults to `Color(alpha=0.0)`, `border_color` to
`Color(hex='#000')` (black, opaque), `border_width` to 1 (declared but
never consulted by `draw`). -/
structure Rectangle where
  x : ℤ
  y : ℤ
  width : ℤ
  height : ℤ
  background_color : Color := ⟨255, 255, 255, 0⟩
  border_color : Color := ⟨0, 0, 0, 1⟩
  border_width : ℤ := 1

/-- The border test of `Rectangle.draw` (line 181): first or last row or
first or last column of the bounding box. -/
def Rectangle.isBorder (r : Rectangle) (x y : ℤ) : Prop :=
  y = r.y ∨ y = r.y + r.height - 1 ∨ x = r.x ∨ x = r.x + r.width - 1

instance (r : Rectangle) (x y : ℤ) : Decidable (r.isBorder x y) := by
  unfold Rectangle.isBorder; infer_instance

/-- The body of the nested loop of `Rectangle.draw` (lines 181-184): blend
the border color into a border pixel, the background color into an
interior pixel. -/
def Rectangle.drawPixel (r : Rectangle) (g : Grid) (x y : ℤ) : Grid :=
  if r.isBorder x y then
    setPixel g x y (r.border_color.blend (getPixel g x y))
  else
    setPixel g x y (r.background_color.blend (getPixel g x y))

/-- Python `range(a, b)` as a list of integers. -/
def pyRange (a b : ℤ) : List ℤ :=
  (List.range (b - a).toNat).map fun (i : ℕ) => a + (i : ℤ)

/-- `Rectangle.draw` (lines 178-184): for y in range(self.y, self.y+height),
for x in range(self.x, self.x+width), write the blended pixel. -/
def Rectangle.draw (r : Rectangle) (c : Canvas) : Canvas :=
  { c with
    pixels :=
      (pyRange r.y (r.y + r.height)).foldl
        (fun g yy =>
          (pyRange r.x (r.x + r.width)).foldl
            (fun g2 xx => r.drawPixel g2 xx yy) g)
        c.pixels }

/-- The grid is a rectangular height-by-width matrix of pixels. -/
def GridRect (g : Grid) (W H : ℤ) : Prop :=
  (g.length : ℤ) = H ∧ ∀ row ∈ g, (row.length : ℤ) = W

/-- The coordinate is inside a width-W, height-H canvas. -/
def InCanvas (W H x y : ℤ) : Prop :=
  0 ≤ x ∧ x < W ∧ 0 ≤ y ∧ y < H

instance (W H x y : ℤ) : Decidable (InCanvas W H x y) := by
  unfold InCanvas; infer_instance

/-- The coordinate is inside the rectangle's bounding box
`[x, x+width) x [y, y+height)`. -/
def Rectangle.InBox (r : Rectangle) (x y : ℤ) : Prop :=
  r.x ≤ x ∧ x < r.x + r.width ∧ r.y ≤ y ∧ y < r.y + r.height

instance (r : Rectangle) (x y : ℤ) : Decidable (r.InBox x y) := by
  unfold Rectangle.InBox; infer_instance

/-- Every coordinate of the rectangle's bounding box lies in the canvas. -/
def Rectangle.BoxIn (r : Rectangle) (W H : ℤ) : Prop :=
  ∀ x y : ℤ, r.InBox x y → InCanvas W H x y

/-- The sixteen lowercase hex digit characters. -/
def lowerHexDigits : List Char :=
  '0' :: '1' :: '2' :: '3' :: '4' :: '5' :: '6' :: '7' :: '8' :: '9' ::
  'a' :: 'b' :: 'c' :: 'd' :: 'e' :: 'f' :: []

/-- All three channels of a color are in the intended range 0..255. -/
def Color.ChannelsOK (c : Color) : Prop :=
  0 ≤ c.red ∧ c.red ≤ 255 ∧ 0 ≤ c.green ∧ c.green ≤ 255 ∧ 0 ≤ c.blue ∧ c.blue ≤ 255

instance (c : Color) : Decidable c.ChannelsOK := by
  unfold Color.ChannelsOK; infer_instance

/-- The coordinates visited by the nested loops of `Rectangle.draw`, one row
after another. -/
def boxCoords (r : Rectangle) : List (ℤ × ℤ) :=
  (pyRange r.y (r.y + r.height)).flatMap fun yy =>
    (pyRange r.x (r.x + r.width)).map fun xx => (xx, yy)

/-- A 5-by-5 all-white canvas: every pixel is the default `Color()`. -/
def whiteCanvas5 : Canvas :=
  ⟨5, 5, List.replicate 5 (List.replicate 5 Color.default)⟩

/-- A 5-by-5 rectangle at the origin with an opaque red border and the
default fully transparent fill. -/
def redRect : Rectangle :=
  { x := 0, y := 0, width := 5, height := 5, border_color := ⟨255, 0, 0, 1⟩ }

/-- A 2x2 rectangle strictly inside the 5x5 canvas, with default colors. -/
def innerRect : Rectangle :=
  { x := 1, y := 1, width := 2, height := 2 }

/-- Python `round(x, 3)` rounds half to even (banker's rounding); the
integer rounding step, modelled exactly on rationals. -/
def roundHalfEven (q : ℚ) : ℤ :=
  if q - ⌊q⌋ < 1/2 then ⌊q⌋
  else if 1/2 < q - ⌊q⌋ then ⌊q⌋ + 1
  else if Even ⌊q⌋ then ⌊q⌋ else ⌊q⌋ + 1

/-- Python `round(x, 3)`: round to 3 decimal places, half to even. -/
def pyRound3 (q : ℚ) : ℚ :=
  (roundHalfEven (q * 1000) : ℚ) / 1000

/-- `Log.average` (lines 29-30): `round(sum(self.records) / len(self.records), 3)`;
with no records the division raises `ZeroDivisionError`. -/
def pyAverage (records : List ℚ) : Except PyErr ℚ :=
  if records.length = 0 then Except.error PyErr.zeroDivisionError
  else Except.ok (pyRound3 (records.sum / (records.length : ℚ)))

/-- Decimal digit character for a value 0..9. -/
def decChar (n : ℕ) : Char :=
  Char.ofNat (48 + n)

/-- The decimal digits of a natural number, most significant first. -/
def natDecDigits (n : ℕ) : List Char :=
  if _h : n < 10 then
    decChar n :: []
  else
    natDecDigits (n / 10) ++ (decChar (n % 10) :: [])
decreasing_by exact Nat.div_lt_self (by omega) (by omega)

/-- Python `str(float)` restricted to the values `round(x, 3)` produces in
the claims: a number that is exactly a multiple of 1/1000 prints as its
integer part, a point, and its fraction digits with trailing zeros
stripped (at least one fraction digit, so whole numbers end in a zero). -/
def floatRepr3 (q : ℚ) : List Char :=
  let k : ℤ := ⌊q * 1000⌋
  let a : ℕ := k.natAbs
  let ip : ℕ := a / 1000
  let fp : ℕ := a % 1000
  let d1 : ℕ := fp / 100
  let d2 : ℕ := fp / 10 % 10
  let d3 : ℕ := fp % 10
  let frac : List Char :=
    if d3 ≠ 0 then decChar d1 :: decChar d2 :: decChar d3 :: []
    else if d2 ≠ 0 then decChar d1 :: decChar d2 :: []
    else if d1 ≠ 0 then decChar d1 :: []
    else '0' :: []
  (if k < 0 then '-' :: [] else []) ++ natDecDigits ip ++ '.' :: frac

/-- Python `str.replace(pattern, repl)` for the single-character pattern
used at lines 38 and 40 (the pattern is always a newline). -/
def replaceNL (s : List Char) (repl : List Char) : List Char :=
  s.flatMap fun ch => if ch = '\n' then repl else ch :: []

/-- A `Log` tree node per the spec's data model (section 3): a name, the
recorded samples, the child Logs.  (The per-instance tree view of the data;
the source's class-level sharing of `records`/`children` is modelled
separately for claim C2.) -/
inductive Log where
  | mk : List Char → List ℚ → List Log → Log

/-- The node's name. -/
def Log.name : Log → List Char
  | .mk n _ _ => n

/-- The node's recorded samples. -/
def Log.records : Log → List ℚ
  | .mk _ rs _ => rs

/-- The node's children. -/
def Log.children : Log → List Log
  | .mk _ _ cs => cs

mutual

/-- `Log.report` (lines 32-43): the line `<name>: <average>s`, then each
child's report appended behind a tree prefix (the while loop is
`Log.reportChildren`). -/
def Log.report : Log → Except PyErr (List Char)
  | .mk name records children => do
    let avg ← pyAverage records
    let tail ← Log.reportChildren children
    pure (name ++ ':' :: ' ' :: (floatRepr3 avg ++ 's' :: tail))

/-- The while loop of lines 35-41: every child but the last is appended
behind `'\n ├─ '` with its newlines replaced by `'\n │ '`; the last child
behind `'\n └─ '` with its newlines replaced by `'\n  '`. -/
def Log.reportChildren : List Log → Except PyErr (List Char)
  | [] => pure []
  | c :: [] => do
    let rc ← c.report
    pure ('\n' :: ' ' :: '└' :: '─' :: ' ' :: replaceNL rc ('\n' :: ' ' :: ' ' :: []))
  | c :: rest => do
    let rc ← c.report
    let rs ← Log.reportChildren rest
    pure (('\n' :: ' ' :: '├' :: '─' :: ' ' :: replaceNL rc ('\n' :: ' ' :: '│' :: ' ' :: [])) ++ rs)

end

/-- A `Log` instance as `__init__` (lines 19-20) actually builds it: the
only per-instance attribute is `name`. -/
structure PyLog where
  name : List Char
deriving DecidableEq, Repr

/-- The class attributes of `Log` (lines 15-17): `children` and `records`
are created once, when the class body runs; no initializer ever assigns
instance-level replacements, so every instance reads and mutates these two
shared lists. -/
structure LogClassState where
  records : List ℚ
  children : List PyLog
deriving DecidableEq, Repr

/-- The class-level lists right after the class body runs: both empty. -/
def LogClassState.init : LogClassState :=
  ⟨[], []⟩

/-- `Log.record` (lines 22-23): `self.records.append(delta)`; attribute
lookup on `self` finds the class-level list, so the append lands in the one
shared list no matter which instance `self` is. -/
def PyLog.record (s : LogClassState) (_self : PyLog) (delta : ℚ) : LogClassState :=
  { s with records := s.records ++ delta :: [] }

/-- `Log.inside` (lines 25-27): append `log` to the class-level `children`
list unless already present. -/
def PyLog.inside (s : LogClassState) (_self : PyLog) (log : PyLog) : LogClassState :=
  if log ∈ s.children then s else { s with children := s.children ++ log :: [] }

/-- Reading `self.records` on any instance yields the class-level list. -/
def PyLog.recordsOf (s : LogClassState) (_self : PyLog) : List ℚ :=
  s.records

/-- Reading `self.children` on any instance yields the class-level list. -/
def PyLog.childrenOf (s : LogClassState) (_self : PyLog) : List PyLog :=
  s.children

/-- `Log.average` called on an instance under the shared class state. -/
def PyLog.averageOf (s : LogClassState) (self : PyLog) : Except PyErr ℚ :=
  pyAverage (PyLog.recordsOf s self)

/-- The mutable state of a `Telemetry` object: `roots`, the `logs` registry
(keyed by the callback's identity, modelled as a number), and the shared
`Log` class state its `record` calls mutate. -/
structure TelemetryState where
  roots : List PyLog
  logs : List (ℕ × PyLog)
  logState : LogClassState

/-- `Telemetry.measure` (lines 49-61) in the direct (callback) form: look
up or create the Log keyed by the callback's identity, invoke the
callback, record the elapsed duration, and then `return` — a bare return,
i.e. Python `None`, modelled as `Option.none`.  The callback is a pure
function plus the duration `delta` the wall clock observed for it. -/
def TelemetryState.measureDirect {α : Type} (t : TelemetryState) (name : List Char)
    (key : ℕ) (callback : Unit → α) (delta : ℚ) : TelemetryState × Option α :=
  let t1 :=
    if (t.logs.find? fun kv => kv.1 = key).isSome then t
    else
      { t with
        logs := t.logs ++ (key, PyLog.mk name) :: []
        roots := t.roots ++ PyLog.mk name :: [] }
  let _result := callback ()
  let t2 := { t1 with logState := PyLog.record t1.logState (PyLog.mk name) delta }
  (t2, none)

/-- The `wrapper` closure of the decorating form (lines 68-76): invoke the
wrapped function, record the duration, and return the function's result
unchanged. -/
def TelemetryState.wrapperCall {α β : Type} (t : TelemetryState) (name : List Char)
    (func : α → β) (args : α) (delta : ℚ) : TelemetryState × β :=
  let result := func args
  ({ t with logState := PyLog.record t.logState (PyLog.mk name) delta }, result)

/-- A drawable as the draw loop of `Canvas.draw` sees it: its `layer` key
and its identity (here its insertion index). -/
structure Obj where
  layer : ℤ
  id : ℕ
deriving DecidableEq, Repr

/-- Line 112, `self.objects.sort(key=lambda obj: obj.layer)`: Python's
list.sort is a stable sort by the key, and a stable sort's output is
uniquely determined by the key order and the input order, so insertion
sort by layer is the same function. -/
def sortObjects (objects : List Obj) : List Obj :=
  objects.insertionSort fun a b => a.layer ≤ b.layer

/-- Example log A: one sample of 1.0 second, no children. -/
def logA : Log :=
  Log.mk ('A' :: []) (1 :: []) []

/-- Example log B: samples 1.0 and 2.0, no children. -/
def logB : Log :=
  Log.mk ('B' :: []) (1 :: 2 :: []) []

/-- Example log P: samples 1.0, 2.0, 3.0 and children A and B. -/
def logP : Log :=
  Log.mk ('P' :: []) (1 :: 2 :: 3 :: []) (logA :: logB :: [])

lemma pyInt_eq_floor {q : ℚ} (h : 0 ≤ q) : pyInt q = ⌊q⌋ := by
  unfold pyInt
  rw [if_neg (not_lt.mpr h)]

lemma pyInt_intCast (n : ℤ) : pyInt (n : ℚ) = n := by
  unfold pyInt
  split
  · exact Int.ceil_intCast n
  · exact Int.floor_intCast n

lemma blend_channel_nonneg {c1 c2 : ℤ} {a : ℚ} (h1 : 0 ≤ c1) (h2 : 0 ≤ c2)
    (ha0 : 0 ≤ a) (ha1 : a ≤ 1) :
    0 ≤ (c1 : ℚ) * a + (c2 : ℚ) * (1 - a) := by
  have hc1 : (0 : ℚ) ≤ (c1 : ℚ) := by exact_mod_cast h1
  have hc2 : (0 : ℚ) ≤ (c2 : ℚ) := by exact_mod_cast h2
  have := mul_nonneg hc1 ha0
  have := mul_nonneg hc2 (by linarith : (0 : ℚ) ≤ 1 - a)
  linarith

/-- C1: for channels in 0..255 and alpha in 0..1, every channel of
`fg.blend(bg)` is the floor of `fg.channel * fg.alpha + bg.channel * (1 - fg.alpha)`;
red(255,0,0,0.5) blended with blue(0,0,255,1.0) has channels (127,0,127);
an alpha-0 foreground returns bg's channels and an alpha-1 foreground fg's. -/
theorem C1_blend_floor (fg bg : Color)
    (hfg : fg.ChannelsOK) (hbg : bg.ChannelsOK)
    (ha0 : 0 ≤ fg.alpha) (ha1 : fg.alpha ≤ 1) :
    ((fg.blend bg).red = ⌊(fg.red : ℚ) * fg.alpha + (bg.red : ℚ) * (1 - fg.alpha)⌋ ∧
     (fg.blend bg).green = ⌊(fg.green : ℚ) * fg.alpha + (bg.green : ℚ) * (1 - fg.alpha)⌋ ∧
     (fg.blend bg).blue = ⌊(fg.blue : ℚ) * fg.alpha + (bg.blue : ℚ) * (1 - fg.alpha)⌋) ∧
    (Color.blend ⟨255, 0, 0, 1/2⟩ ⟨0, 0, 255, 1⟩).rgb = (127, 0, 127) ∧
    (fg.alpha = 0 → (fg.blend bg).rgb = bg.rgb) ∧
    (fg.alpha = 1 → (fg.blend bg).rgb = fg.rgb) := by
  obtain ⟨hr1, hr2, hg1, hg2, hb1, hb2⟩ := hfg
  obtain ⟨hr1b, hr2b, hg1b, hg2b, hb1b, hb2b⟩ := hbg
  refine ⟨⟨?_, ?_, ?_⟩, ?_, ?_, ?_⟩
  · exact pyInt_eq_floor (blend_channel_nonneg hr1 hr1b ha0 ha1)
  · exact pyInt_eq_floor (blend_channel_nonneg hg1 hg1b ha0 ha1)
  · exact pyInt_eq_floor (blend_channel_nonneg hb1 hb1b ha0 ha1)
  · norm_num [Color.blend, Color.rgb, pyInt]
  · intro h0
    simp only [Color.blend, Color.rgb, h0]
    norm_num [pyInt_intCast]
  · intro h1
    simp only [Color.blend, Color.rgb, h1]
    norm_num [pyInt_intCast]

/-- Witness for C1 at fg = (10,20,30,1/2), bg = (1,2,3,1). -/
theorem C1_blend_floor_witness :
    ((Color.blend ⟨10, 20, 30, 1/2⟩ ⟨1, 2, 3, 1⟩).red =
       ⌊((10 : ℤ) : ℚ) * (1/2) + ((1 : ℤ) : ℚ) * (1 - 1/2)⌋ ∧
     (Color.blend ⟨10, 20, 30, 1/2⟩ ⟨1, 2, 3, 1⟩).green =
       ⌊((20 : ℤ) : ℚ) * (1/2) + ((2 : ℤ) : ℚ) * (1 - 1/2)⌋ ∧
     (Color.blend ⟨10, 20, 30, 1/2⟩ ⟨1, 2, 3, 1⟩).blue =
       ⌊((30 : ℤ) : ℚ) * (1/2) + ((3 : ℤ) : ℚ) * (1 - 1/2)⌋) ∧
    (Color.blend ⟨255, 0, 0, 1/2⟩ ⟨0, 0, 255, 1⟩).rgb = (127, 0, 127) ∧
    ((1 : ℚ)/2 = 0 → (Color.blend ⟨10, 20, 30, 1/2⟩ ⟨1, 2, 3, 1⟩).rgb =
       (Color.mk 1 2 3 1).rgb) ∧
    ((1 : ℚ)/2 = 1 → (Color.blend ⟨10, 20, 30, 1/2⟩ ⟨1, 2, 3, 1⟩).rgb =
       (Color.mk 10 20 30 (1/2)).rgb) :=
  C1_blend_floor ⟨10, 20, 30, 1/2⟩ ⟨1, 2, 3, 1⟩ (by decide) (by decide)
    (by norm_num) (by norm_num)

lemma lowerHexDigit_spec {d : Char} (h : d ∈ lowerHexDigits) :
    hexChar (hexVal d) = d ∧ isHexDig d = true ∧ hexVal d < 16 := by
  fin_cases h <;> exact ⟨by decide, by decide, by decide⟩

lemma pyIntHex_pair {d1 d2 : Char} (h1 : isHexDig d1 = true) (h2 : isHexDig d2 = true) :
    pyIntHex (d1 :: d2 :: []) = Except.ok (16 * hexVal d1 + hexVal d2) := by
  unfold pyIntHex
  rw [if_pos]
  · simp [List.foldl]
  · refine ⟨by simp, ?_⟩
    simp [List.all, h1, h2]

lemma natHexDigits_two {a b : ℕ} (ha : a < 16) (ha0 : 0 < a) (hb : b < 16) :
    natHexDigits (16 * a + b) = hexChar a :: hexChar b :: [] := by
  rw [natHexDigits]
  rw [dif_neg (by omega)]
  have hdiv : (16 * a + b) / 16 = a := by omega
  have hmod : (16 * a + b) % 16 = b := by omega
  rw [hdiv, hmod, natHexDigits, dif_pos ha]
  simp

lemma format02x_pair {a b : ℕ} (ha : a < 16) (hb : b < 16) :
    format02x (16 * a + b) = hexChar a :: hexChar b :: [] := by
  rcases Nat.eq_zero_or_pos a with h0 | h0
  · subst h0
    unfold format02x
    rw [show 16 * 0 + b = b by omega, natHexDigits, dif_pos hb]
    have h0c : hexChar 0 = '0' := by decide
    simp [List.replicate, h0c]
  · unfold format02x
    rw [natHexDigits_two ha h0 hb]
    simp [List.replicate]

/-- C7: decoding a lowercase 7-character hex string and re-encoding with
`to_hex` yields the identical string, and decoding the shorthand string
0f0 (with a leading hash) yields channels (0, 255, 0). -/
theorem C7_hex_roundtrip (c : Color) (d1 d2 d3 d4 d5 d6 : Char)
    (h1 : d1 ∈ lowerHexDigits) (h2 : d2 ∈ lowerHexDigits)
    (h3 : d3 ∈ lowerHexDigits) (h4 : d4 ∈ lowerHexDigits)
    (h5 : d5 ∈ lowerHexDigits) (h6 : d6 ∈ lowerHexDigits) :
    (∃ c2 : Color,
        c.setHex ('#' :: d1 :: d2 :: d3 :: d4 :: d5 :: d6 :: []) = Except.ok c2 ∧
        c2.toHex = '#' :: d1 :: d2 :: d3 :: d4 :: d5 :: d6 :: []) ∧
    c.setHex ('#' :: '0' :: 'f' :: '0' :: []) =
      Except.ok { c with red := 0, green := 255, blue := 0 } := by
  obtain ⟨he1, hd1, hv1⟩ := lowerHexDigit_spec h1
  obtain ⟨he2, hd2, hv2⟩ := lowerHexDigit_spec h2
  obtain ⟨he3, hd3, hv3⟩ := lowerHexDigit_spec h3
  obtain ⟨he4, hd4, hv4⟩ := lowerHexDigit_spec h4
  obtain ⟨he5, hd5, hv5⟩ := lowerHexDigit_spec h5
  obtain ⟨he6, hd6, hv6⟩ := lowerHexDigit_spec h6
  constructor
  · refine ⟨{ c with
        red := ((16 * hexVal d1 + hexVal d2 : ℕ) : ℤ)
        green := ((16 * hexVal d3 + hexVal d4 : ℕ) : ℤ)
        blue := ((16 * hexVal d5 + hexVal d6 : ℕ) : ℤ) }, ?_, ?_⟩
    · unfold Color.setHex
      simp only [List.length_cons, List.length_nil, List.drop, List.take]
      norm_num
      simp only [pyIntHex_pair hd1 hd2, pyIntHex_pair hd3 hd4, pyIntHex_pair hd5 hd6]
      rfl
    · unfold Color.toHex
      simp only [Int.toNat_natCast]
      rw [format02x_pair hv1 hv2, format02x_pair hv3 hv4, format02x_pair hv5 hv6,
        he1, he2, he3, he4, he5, he6]
      simp
  · unfold Color.setHex
    norm_num
    rw [show pyIntHex ('0' :: '0' :: []) = Except.ok 0 from rfl,
      show pyIntHex ('f' :: 'f' :: []) = Except.ok 255 from rfl]
    rfl

/-- C8: a hex string whose length is neither 7 nor 4 leaves the color
unchanged and raises no error. -/
theorem C8_hex_invalid_length (c : Color) (s : List Char)
    (h7 : s.length ≠ 7) (h4 : s.length ≠ 4) :
    c.setHex s = Except.ok c := by
  unfold Color.setHex
  rw [if_neg h7, if_neg h4]
  rfl

/-- Witness for C8 at the string with characters hash, 1, 2 (length 3). -/
theorem C8_hex_invalid_length_witness :
    Color.setHex ⟨1, 2, 3, 1⟩ ('#' :: '1' :: '2' :: []) = Except.ok ⟨1, 2, 3, 1⟩ :=
  C8_hex_invalid_length ⟨1, 2, 3, 1⟩ ('#' :: '1' :: '2' :: []) (by decide) (by decide)

lemma row_of_gridRect {g : Grid} {W H : ℤ} (hg : GridRect g W H) {y : ℤ}
    (h0 : 0 ≤ y) (hH : y < H) :
    y.toNat < g.length ∧ ((g.getD y.toNat []).length : ℤ) = W := by
  obtain ⟨hlen, hrows⟩ := hg
  have hy : y.toNat < g.length := by omega
  refine ⟨hy, ?_⟩
  rw [List.getD_eq_getElem?_getD, List.getElem?_eq_getElem hy]
  exact hrows _ (List.getElem_mem hy)

lemma setPixel_rect {g : Grid} {W H : ℤ} (hg : GridRect g W H) {x y : ℤ}
    (hin : InCanvas W H x y) (v : Color) :
    GridRect (setPixel g x y v) W H := by
  obtain ⟨hx0, hxW, hy0, hyH⟩ := hin
  obtain ⟨hy, hrowW⟩ := row_of_gridRect hg hy0 hyH
  refine ⟨by rw [setPixel, List.length_set]; exact hg.1, ?_⟩
  intro row hrow
  rcases List.mem_or_eq_of_mem_set hrow with hmem | heq
  · exact hg.2 row hmem
  · rw [heq, List.length_set]
    exact hrowW

lemma getPixel_setPixel_same {g : Grid} {W H : ℤ} (hg : GridRect g W H) {x y : ℤ}
    (hin : InCanvas W H x y) (v : Color) :
    getPixel (setPixel g x y v) x y = v := by
  obtain ⟨hx0, hxW, hy0, hyH⟩ := hin
  obtain ⟨hy, hrowW⟩ := row_of_gridRect hg hy0 hyH
  have hx : x.toNat < (g.getD y.toNat []).length := by omega
  unfold getPixel setPixel
  simp only [List.getD_eq_getElem?_getD] at hx ⊢
  rw [List.getElem?_set_self hy, Option.getD_some,
    List.getElem?_set_self hx, Option.getD_some]

lemma getPixel_setPixel_ne {g : Grid} {W H : ℤ} (hg : GridRect g W H) {x y x2 y2 : ℤ}
    (hin : InCanvas W H x y) (hin2 : InCanvas W H x2 y2)
    (hne : (x2, y2) ≠ (x, y)) (v : Color) :
    getPixel (setPixel g x y v) x2 y2 = getPixel g x2 y2 := by
  obtain ⟨hx0, hxW, hy0, hyH⟩ := hin
  obtain ⟨hx0b, hxWb, hy0b, hyHb⟩ := hin2
  obtain ⟨hy, hrowW⟩ := row_of_gridRect hg hy0 hyH
  by_cases hyy : y2 = y
  · subst hyy
    have hxx : x2 ≠ x := by
      intro h
      exact hne (by rw [h])
    have hxx2 : x.toNat ≠ x2.toNat := by omega
    unfold getPixel setPixel
    simp only [List.getD_eq_getElem?_getD]
    rw [List.getElem?_set_self hy, Option.getD_some, List.getElem?_set_ne hxx2]
  · have hyy2 : y.toNat ≠ y2.toNat := by omega
    unfold getPixel setPixel
    simp only [List.getD_eq_getElem?_getD]
    rw [List.getElem?_set_ne hyy2]

lemma drawPixel_eq (r : Rectangle) (g : Grid) (x y : ℤ) :
    r.drawPixel g x y =
      setPixel g x y
        ((if r.isBorder x y then r.border_color else r.background_color).blend
          (getPixel g x y)) := by
  by_cases h : r.isBorder x y <;> simp [Rectangle.drawPixel, h]

lemma drawList_rect (r : Rectangle) {W H : ℤ} :
    ∀ (ps : List (ℤ × ℤ)) (g : Grid), GridRect g W H →
      (∀ p ∈ ps, InCanvas W H p.1 p.2) →
      GridRect (ps.foldl (fun g2 p => r.drawPixel g2 p.1 p.2) g) W H := by
  intro ps
  induction ps with
  | nil => intro g hg _; exact hg
  | cons p ps ih =>
    intro g hg hps
    rw [List.foldl_cons]
    refine ih _ ?_ (fun q hq => hps q (List.mem_cons_of_mem p hq))
    rw [drawPixel_eq]
    exact setPixel_rect hg (hps p (List.mem_cons_self p ps)) _

lemma drawList_get (r : Rectangle) {W H : ℤ} :
    ∀ (ps : List (ℤ × ℤ)) (g : Grid), GridRect g W H →
      (∀ p ∈ ps, InCanvas W H p.1 p.2) → ps.Nodup →
      ∀ x y : ℤ, InCanvas W H x y →
        getPixel (ps.foldl (fun g2 p => r.drawPixel g2 p.1 p.2) g) x y =
          if (x, y) ∈ ps then
            (if r.isBorder x y then r.border_color else r.background_color).blend
              (getPixel g x y)
          else getPixel g x y := by
  intro ps
  induction ps with
  | nil => intro g hg _ _ x y hin; simp
  | cons p ps ih =>
    intro g hg hps hnd x y hin
    have hpin : InCanvas W H p.1 p.2 := hps p (List.mem_cons_self p ps)
    have hg1 : GridRect (r.drawPixel g p.1 p.2) W H := by
      rw [drawPixel_eq]
      exact setPixel_rect hg hpin _
    have hps1 : ∀ q ∈ ps, InCanvas W H q.1 q.2 :=
      fun q hq => hps q (List.mem_cons_of_mem p hq)
    rw [List.foldl_cons,
      ih (r.drawPixel g p.1 p.2) hg1 hps1 (List.Nodup.of_cons hnd) x y hin]
    by_cases hq : (x, y) = p
    · have hnotin : (x, y) ∉ ps := by
        rw [hq]
        exact (List.nodup_cons.mp hnd).1
      rw [if_neg hnotin, if_pos (by rw [hq]; exact List.mem_cons_self p ps)]
      rw [drawPixel_eq]
      have : p.1 = x ∧ p.2 = y := by
        have := congrArg Prod.fst hq
        have := congrArg Prod.snd hq
        simp_all
      obtain ⟨h1, h2⟩ := this
      rw [h1, h2] at *
      exact getPixel_setPixel_same hg hin _
    · have hmem : ((x, y) ∈ p :: ps) ↔ ((x, y) ∈ ps) := by
        rw [List.mem_cons]
        exact or_iff_right hq
      have hget : getPixel (r.drawPixel g p.1 p.2) x y = getPixel g x y := by
        rw [drawPixel_eq]
        exact getPixel_setPixel_ne hg hpin hin (by simpa using hq) _
      rw [hget]
      simp only [hmem]

lemma foldl_flatMap {α β γ : Type} (g : β → α → β) (f : γ → List α)
    (l : List γ) (init : β) :
    (l.flatMap f).foldl g init = l.foldl (fun acc c => (f c).foldl g acc) init := by
  induction l generalizing init with
  | nil => rfl
  | cons a l ih => simp [List.flatMap_cons, List.foldl_append, ih]

lemma draw_pixels_eq (r : Rectangle) (c : Canvas) :
    (r.draw c).pixels =
      (boxCoords r).foldl (fun g2 p => r.drawPixel g2 p.1 p.2) c.pixels := by
  unfold Rectangle.draw boxCoords
  rw [foldl_flatMap]
  simp [List.foldl_map]

lemma mem_pyRange (a b t : ℤ) : t ∈ pyRange a b ↔ a ≤ t ∧ t < b := by
  simp only [pyRange, List.mem_map, List.mem_range]
  constructor
  · rintro ⟨i, hi, rfl⟩
    omega
  · intro h
    exact ⟨(t - a).toNat, by omega, by omega⟩

lemma mem_boxCoords (r : Rectangle) (x y : ℤ) :
    (x, y) ∈ boxCoords r ↔ r.InBox x y := by
  simp only [boxCoords, List.mem_flatMap, List.mem_map, mem_pyRange,
    Rectangle.InBox, Prod.mk.injEq]
  constructor
  · rintro ⟨yy, hyy, xx, hxx, rfl, rfl⟩
    omega
  · rintro ⟨hx1, hx2, hy1, hy2⟩
    exact ⟨y, by omega, x, by omega, rfl, rfl⟩

lemma nodup_pyRange (a b : ℤ) : (pyRange a b).Nodup := by
  unfold pyRange
  refine List.Nodup.map ?_ (List.nodup_range _)
  intro i j h
  have h2 : a + (i : ℤ) = a + (j : ℤ) := h
  omega

lemma nodup_boxCoords (r : Rectangle) : (boxCoords r).Nodup := by
  unfold boxCoords
  rw [List.nodup_flatMap]
  refine ⟨?_, ?_⟩
  · intro yy _
    refine List.Nodup.map ?_ (nodup_pyRange _ _)
    intro a b h
    exact ((Prod.mk.injEq _ _ _ _).mp h).1
  · refine List.Nodup.pairwise_of_forall_ne (nodup_pyRange r.y (r.y + r.height)) ?_
    intro y1 _ y2 _ hne
    intro q hq1 hq2
    simp only [List.mem_map] at hq1 hq2
    obtain ⟨x1, _, rfl⟩ := hq1
    obtain ⟨x2, _, h⟩ := hq2
    exact hne ((Prod.mk.injEq _ _ _ _).mp h.symm).2

lemma draw_get (r : Rectangle) (cv : Canvas) (x y : ℤ)
    (hrect : GridRect cv.pixels cv.width cv.height)
    (hbox : r.BoxIn cv.width cv.height)
    (hin : InCanvas cv.width cv.height x y) :
    getPixel (r.draw cv).pixels x y =
      if r.InBox x y then
        (if r.isBorder x y then r.border_color else r.background_color).blend
          (getPixel cv.pixels x y)
      else getPixel cv.pixels x y := by
  rw [draw_pixels_eq]
  rw [drawList_get r (boxCoords r) cv.pixels hrect
    (fun p hp => hbox p.1 p.2 ((mem_boxCoords r p.1 p.2).mp hp))
    (nodup_boxCoords r) x y hin]
  simp only [mem_boxCoords]

lemma whiteCanvas5_rect : GridRect whiteCanvas5.pixels whiteCanvas5.width whiteCanvas5.height := by
  constructor
  · decide
  · intro row hrow
    rcases List.eq_of_mem_replicate hrow with rfl
    decide

lemma redRect_boxIn : redRect.BoxIn whiteCanvas5.width whiteCanvas5.height := by
  intro x y h
  obtain ⟨h1, h2, h3, h4⟩ := h
  simp only [redRect] at h1 h2 h3 h4
  simp only [InCanvas, whiteCanvas5]
  omega

lemma getPixel_white5 {x y : ℤ} (hx0 : 0 ≤ x) (hx : x < 5) (hy0 : 0 ≤ y) (hy : y < 5) :
    getPixel whiteCanvas5.pixels x y = Color.default := by
  unfold getPixel whiteCanvas5
  rw [List.getD_eq_getElem?_getD]
  rw [List.getD_eq_getElem?_getD]
  rw [List.getElem?_replicate, if_pos (show y.toNat < 5 by omega), Option.getD_some]
  rw [List.getElem?_replicate, if_pos (show x.toNat < 5 by omega), Option.getD_some]

lemma blend_red_white : (Color.blend ⟨255, 0, 0, 1⟩ Color.default).rgb = (255, 0, 0) := by
  norm_num [Color.blend, Color.rgb, Color.default, pyInt]

lemma blend_transparent_white :
    (Color.blend ⟨255, 255, 255, 0⟩ Color.default).rgb = (255, 255, 255) := by
  norm_num [Color.blend, Color.rgb, Color.default, pyInt]

/-- C3: Rectangle.draw visits exactly the box `[x, x+w) x [y, y+h)`, blending
the border color into pixels on the first or last row or column and the
background color into interior pixels; a 5x5 rectangle at the origin with
opaque red border and transparent fill on a white canvas leaves the 9
interior pixels with white channels and the 16 ring pixels with red
channels. -/
theorem C3_rectangle_draw (r : Rectangle) (cv : Canvas) (x y : ℤ)
    (hrect : GridRect cv.pixels cv.width cv.height)
    (hbox : r.BoxIn cv.width cv.height)
    (hin : InCanvas cv.width cv.height x y) :
    (getPixel (r.draw cv).pixels x y =
      if r.InBox x y then
        (if r.isBorder x y then r.border_color else r.background_color).blend
          (getPixel cv.pixels x y)
      else getPixel cv.pixels x y) ∧
    (∀ x2 y2 : ℤ, 0 ≤ x2 → x2 < 5 → 0 ≤ y2 → y2 < 5 →
      (getPixel (redRect.draw whiteCanvas5).pixels x2 y2).rgb =
        if x2 = 0 ∨ x2 = 4 ∨ y2 = 0 ∨ y2 = 4 then ((255 : ℤ), (0 : ℤ), (0 : ℤ))
        else (255, 255, 255)) := by
  constructor
  · exact draw_get r cv x y hrect hbox hin
  · intro x2 y2 hx0 hx5 hy0 hy5
    rw [draw_get redRect whiteCanvas5 x2 y2 whiteCanvas5_rect redRect_boxIn
      ⟨hx0, hx5, hy0, hy5⟩]
    rw [getPixel_white5 hx0 hx5 hy0 hy5]
    rw [if_pos (show redRect.InBox x2 y2 by
      simp only [Rectangle.InBox, redRect]
      omega)]
    by_cases hb : x2 = 0 ∨ x2 = 4 ∨ y2 = 0 ∨ y2 = 4
    · rw [if_pos hb,
        if_pos (show redRect.isBorder x2 y2 by
          simp only [Rectangle.isBorder, redRect]
          omega)]
      exact blend_red_white
    · rw [if_neg hb,
        if_neg (show ¬ redRect.isBorder x2 y2 by
          simp only [Rectangle.isBorder, redRect]
          omega)]
      exact blend_transparent_white

/-- Witness for C3 at the 5x5 red-bordered rectangle on the white canvas,
read at the interior pixel (1, 1). -/
theorem C3_rectangle_draw_witness :
    (getPixel (redRect.draw whiteCanvas5).pixels 1 1 =
      if redRect.InBox 1 1 then
        (if redRect.isBorder 1 1 then redRect.border_color else redRect.background_color).blend
          (getPixel whiteCanvas5.pixels 1 1)
      else getPixel whiteCanvas5.pixels 1 1) ∧
    (∀ x2 y2 : ℤ, 0 ≤ x2 → x2 < 5 → 0 ≤ y2 → y2 < 5 →
      (getPixel (redRect.draw whiteCanvas5).pixels x2 y2).rgb =
        if x2 = 0 ∨ x2 = 4 ∨ y2 = 0 ∨ y2 = 4 then ((255 : ℤ), (0 : ℤ), (0 : ℤ))
        else (255, 255, 255)) :=
  C3_rectangle_draw redRect whiteCanvas5 1 1 whiteCanvas5_rect redRect_boxIn (by decide)

lemma innerRect_boxIn : innerRect.BoxIn whiteCanvas5.width whiteCanvas5.height := by
  intro x y h
  obtain ⟨h1, h2, h3, h4⟩ := h
  simp only [innerRect] at h1 h2 h3 h4
  simp only [InCanvas, whiteCanvas5]
  omega

/-- C10: for a rectangle whose bounding box lies inside the canvas grid,
draw leaves every canvas pixel outside the box unchanged. -/
theorem C10_draw_outside (r : Rectangle) (cv : Canvas) (x y : ℤ)
    (hrect : GridRect cv.pixels cv.width cv.height)
    (hbox : r.BoxIn cv.width cv.height)
    (hin : InCanvas cv.width cv.height x y)
    (hout : ¬ r.InBox x y) :
    getPixel (r.draw cv).pixels x y = getPixel cv.pixels x y := by
  rw [draw_get r cv x y hrect hbox hin, if_neg hout]

/-- Witness for C10: the 2x2 rectangle at (1,1) leaves pixel (4,4) of the
5x5 white canvas unchanged. -/
theorem C10_draw_outside_witness :
    getPixel (innerRect.draw whiteCanvas5).pixels 4 4 = getPixel whiteCanvas5.pixels 4 4 :=
  C10_draw_outside innerRect whiteCanvas5 4 4 whiteCanvas5_rect innerRect_boxIn
    (by decide) (by decide)

lemma pyRound3_intCast (n : ℤ) : pyRound3 (n : ℚ) = n := by
  unfold pyRound3 roundHalfEven
  have h : ((n : ℚ) * 1000) = ((1000 * n : ℤ) : ℚ) := by push_cast; ring
  rw [h, Int.floor_intCast]
  rw [if_pos (by norm_num)]
  push_cast
  ring

lemma pyAverage_one : pyAverage (1 :: []) = Except.ok 1 := by
  unfold pyAverage
  rw [if_neg (by simp)]
  norm_num
  have := pyRound3_intCast 1
  norm_num at this
  exact this

/-- C2: in the source, `records` and `children` are class-level lists, so
recording on one Log instance is visible through every other instance:
with two distinct fresh instances a and b, a.record(1.0) makes b's records
[1.0] (and b's average becomes 1.0 where it previously raised), and
a.inside(c) makes c appear among b's children. -/
theorem C2_class_level_sharing :
    PyLog.recordsOf (PyLog.record LogClassState.init ⟨'a' :: []⟩ 1) ⟨'b' :: []⟩ = 1 :: [] ∧
    PyLog.recordsOf LogClassState.init ⟨'b' :: []⟩ = [] ∧
    PyLog.averageOf LogClassState.init ⟨'b' :: []⟩ = Except.error PyErr.zeroDivisionError ∧
    PyLog.averageOf (PyLog.record LogClassState.init ⟨'a' :: []⟩ 1) ⟨'b' :: []⟩ =
      Except.ok 1 ∧
    PyLog.childrenOf (PyLog.inside LogClassState.init ⟨'a' :: []⟩ ⟨'c' :: []⟩) ⟨'b' :: []⟩ =
      ⟨'c' :: []⟩ :: [] ∧
    PyLog.childrenOf LogClassState.init ⟨'b' :: []⟩ = [] := by
  refine ⟨rfl, rfl, rfl, ?_, ?_, rfl⟩
  · exact pyAverage_one
  · simp [PyLog.inside, PyLog.childrenOf, LogClassState.init]

/-- C4: `average()` on a Log with zero samples does fail and never returns
a value, but it fails by the division `sum(records) / len(records)` raising
`ZeroDivisionError` — there is no explicit NoSamples condition in the
code. -/
theorem C4_average_empty_division :
    pyAverage [] = Except.error PyErr.zeroDivisionError ∧
    pyAverage [] ≠ Except.error PyErr.noSamples ∧
    ∀ q : ℚ, pyAverage [] ≠ Except.ok q := by
  refine ⟨rfl, by simp [pyAverage], fun q => by simp [pyAverage]⟩

/-- C5 counterexample: the direct form of `measure` ends in a bare
`return`, so with an operation returning 42 it returns None, not 42. -/
theorem C5_measure_counterexample :
    (TelemetryState.measureDirect ⟨[], [], LogClassState.init⟩ ('f' :: []) 0
        (fun _ => (42 : ℕ)) 1).2 = none ∧
    (TelemetryState.measureDirect ⟨[], [], LogClassState.init⟩ ('f' :: []) 0
        (fun _ => (42 : ℕ)) 1).2 ≠ some 42 := by
  refine ⟨rfl, ?_⟩
  rw [show (TelemetryState.measureDirect ⟨[], [], LogClassState.init⟩ ('f' :: []) 0
    (fun _ => (42 : ℕ)) 1).2 = none from rfl]
  simp

/-- C5 amended: the direct (non-decorating) form of `measure` always
returns None, discarding the operation's result; it is the decorating
form's wrapper that returns whatever the wrapped operation returns. -/
theorem C5_measure_return_value {α β : Type} (t : TelemetryState) (name : List Char)
    (key : ℕ) (callback : Unit → α) (delta : ℚ) (func : α → β) (args : α) :
    (t.measureDirect name key callback delta).2 = none ∧
    (t.wrapperCall name func args delta).2 = func args :=
  ⟨rfl, rfl⟩

lemma filter_orderedInsert (k : ℤ) (a : Obj) (l : List Obj) :
    (l.orderedInsert (fun u v => u.layer ≤ v.layer) a).filter
        (fun o => decide (o.layer = k)) =
      if a.layer = k then
        a :: l.filter (fun o => decide (o.layer = k))
      else l.filter (fun o => decide (o.layer = k)) := by
  induction l with
  | nil =>
    by_cases hak : a.layer = k <;> simp [List.orderedInsert, List.filter, hak]
  | cons b l ih =>
    by_cases hab : a.layer ≤ b.layer
    · rw [List.orderedInsert_of_le (fun (u v : Obj) => u.layer ≤ v.layer) l hab]
      by_cases hak : a.layer = k <;> by_cases hbk : b.layer = k <;>
        simp [List.filter_cons, hak, hbk]
    · rw [List.orderedInsert, if_neg hab, List.filter_cons]
      have hlt : b.layer < a.layer := lt_of_not_le hab
      by_cases hak : a.layer = k
      · have hbk : ¬ b.layer = k := by omega
        simp [hbk, ih, hak, List.filter_cons]
      · by_cases hbk : b.layer = k <;> simp [hbk, ih, hak, List.filter_cons]

lemma filter_sortObjects (k : ℤ) (l : List Obj) :
    (sortObjects l).filter (fun o => decide (o.layer = k)) =
      l.filter (fun o => decide (o.layer = k)) := by
  unfold sortObjects
  induction l with
  | nil => rfl
  | cons a l ih =>
    rw [List.insertionSort, filter_orderedInsert]
    by_cases hak : a.layer = k <;> simp [List.filter_cons, hak, ih]

/-- C6: the draw loop's sort is a stable ascending sort by layer: the
sorted list is a permutation of the objects (each drawn exactly once), it
is sorted by layer, objects of equal layer keep their insertion order, and
for insertion layers [2,1,1,3] the resulting order is the first-inserted
layer-1 object, the second-inserted layer-1 object, then the layer-2 and
the layer-3 objects. -/
theorem C6_draw_order (objects : List Obj) :
    (sortObjects objects).Perm objects ∧
    (sortObjects objects).Sorted (fun a b => a.layer ≤ b.layer) ∧
    (∀ k : ℤ, (sortObjects objects).filter (fun o => decide (o.layer = k)) =
      objects.filter (fun o => decide (o.layer = k))) ∧
    sortObjects (⟨2, 0⟩ :: ⟨1, 1⟩ :: ⟨1, 2⟩ :: ⟨3, 3⟩ :: []) =
      ⟨1, 1⟩ :: ⟨1, 2⟩ :: ⟨2, 0⟩ :: ⟨3, 3⟩ :: [] := by
  refine ⟨List.perm_insertionSort _ _, ?_, fun k => filter_sortObjects k objects, by decide⟩
  have ht : IsTotal Obj (fun a b => a.layer ≤ b.layer) := ⟨fun a b => le_total _ _⟩
  have htr : IsTrans Obj (fun a b => a.layer ≤ b.layer) :=
    ⟨fun a b c hab hbc => le_trans hab hbc⟩
  exact List.sorted_insertionSort _ _

lemma pyAverage_eval {records : List ℚ} {v : ℚ} (h1 : records ≠ [])
    (h2 : records.sum / (records.length : ℚ) = v) :
    pyAverage records = Except.ok (pyRound3 v) := by
  unfold pyAverage
  rw [if_neg (fun hl => h1 (List.length_eq_zero.mp hl)), h2]

lemma pyRound3_two : pyRound3 (2 : ℚ) = 2 := by
  have := pyRound3_intCast 2
  norm_num at this
  exact this

lemma pyRound3_threehalves : pyRound3 (3/2 : ℚ) = 3/2 := by
  unfold pyRound3 roundHalfEven
  rw [show ((3:ℚ)/2) * 1000 = ((1500 : ℤ) : ℚ) by norm_num]
  rw [Int.floor_intCast]
  rw [if_pos (by norm_num)]
  norm_num

lemma pyAverage_twelve : pyAverage (1 :: 2 :: []) = Except.ok (3/2) := by
  rw [@pyAverage_eval (1 :: 2 :: []) (3/2) (by simp) (by norm_num), pyRound3_threehalves]

lemma pyAverage_123 : pyAverage (1 :: 2 :: 3 :: []) = Except.ok 2 := by
  rw [@pyAverage_eval (1 :: 2 :: 3 :: []) 2 (by simp) (by norm_num), pyRound3_two]

lemma natDecDigits_lt10 {n : ℕ} (h : n < 10) : natDecDigits n = decChar n :: [] := by
  rw [natDecDigits, dif_pos h]

lemma floatRepr3_one : floatRepr3 1 = '1' :: '.' :: '0' :: [] := by
  unfold floatRepr3
  rw [show ⌊(1 : ℚ) * 1000⌋ = (1000 : ℤ) by norm_num]
  norm_num [natDecDigits_lt10, decChar]

lemma floatRepr3_two : floatRepr3 2 = '2' :: '.' :: '0' :: [] := by
  unfold floatRepr3
  rw [show ⌊(2 : ℚ) * 1000⌋ = (2000 : ℤ) by norm_num]
  norm_num [natDecDigits_lt10, decChar]

lemma floatRepr3_threehalves : floatRepr3 (3/2) = '1' :: '.' :: '5' :: [] := by
  unfold floatRepr3
  rw [show ⌊(3 : ℚ)/2 * 1000⌋ = (1500 : ℤ) by norm_num]
  norm_num [natDecDigits_lt10, decChar]

lemma report_nochildren (name : List Char) (records : List ℚ) (avg : ℚ)
    (h : pyAverage records = Except.ok avg) :
    Log.report (Log.mk name records []) =
      Except.ok (name ++ ':' :: ' ' :: (floatRepr3 avg ++ 's' :: [])) := by
  rw [Log.report, h, Log.reportChildren]
  rfl

lemma logA_report :
    Log.report logA = Except.ok ('A' :: ':' :: ' ' :: '1' :: '.' :: '0' :: 's' :: []) := by
  unfold logA
  rw [report_nochildren _ _ _ pyAverage_one, floatRepr3_one]
  rfl

lemma logB_report :
    Log.report logB = Except.ok ('B' :: ':' :: ' ' :: '1' :: '.' :: '5' :: 's' :: []) := by
  unfold logB
  rw [report_nochildren _ _ _ pyAverage_twelve, floatRepr3_threehalves]
  rfl

lemma except_bind_ok {ε α β : Type} (a : α) (f : α → Except ε β) :
    (Bind.bind (Except.ok a) f : Except ε β) = f a :=
  rfl

lemma reportChildren_closed :
    ∀ (cs : List Log) (rs : List (List Char)) (clast : Log) (rlast : List Char),
      List.Forall₂ (fun c rc => Log.report c = Except.ok rc) cs rs →
      Log.report clast = Except.ok rlast →
      Log.reportChildren (cs ++ clast :: []) =
        Except.ok
          ((rs.map fun rc =>
              '\n' :: ' ' :: '├' :: '─' :: ' ' ::
                replaceNL rc ('\n' :: ' ' :: '│' :: ' ' :: [])).flatten ++
            '\n' :: ' ' :: '└' :: '─' :: ' ' ::
              replaceNL rlast ('\n' :: ' ' :: ' ' :: [])) := by
  intro cs
  induction cs with
  | nil =>
    intro rs clast rlast hcs hlast
    cases hcs
    rw [List.nil_append, Log.reportChildren, hlast]
    simp

  | cons c cs ih =>
    intro rs clast rlast hcs hlast
    cases hcs with
    | cons hc hcs2 =>
      cases cs with
      | nil =>
        cases hcs2
        rw [List.cons_append, List.nil_append]
        rw [Log.reportChildren, hc, except_bind_ok, Log.reportChildren, hlast,
          except_bind_ok]
        · exact congrArg Except.ok (by simp)
        · simp
      | cons d ds =>
        have ih2 := ih _ clast rlast hcs2 hlast
        rw [List.cons_append] at ih2
        rw [List.cons_append, List.cons_append]
        rw [Log.reportChildren, hc, except_bind_ok, ih2, except_bind_ok]
        · exact congrArg Except.ok (by simp)
        · simp

/-- C9: the actual report of log P (children A and B) — note the leading
space in each child-line prefix — differs from the rendering the claim
describes, whose child lines would begin directly with the box-drawing
characters. -/
theorem C9_report_counterexample :
    Log.report logP =
      Except.ok ('P' :: ':' :: ' ' :: '2' :: '.' :: '0' :: 's' ::
        '\n' :: ' ' :: '├' :: '─' :: ' ' ::
          'A' :: ':' :: ' ' :: '1' :: '.' :: '0' :: 's' ::
        '\n' :: ' ' :: '└' :: '─' :: ' ' ::
          'B' :: ':' :: ' ' :: '1' :: '.' :: '5' :: 's' :: []) ∧
    ('P' :: ':' :: ' ' :: '2' :: '.' :: '0' :: 's' ::
        '\n' :: ' ' :: '├' :: '─' :: ' ' ::
          'A' :: ':' :: ' ' :: '1' :: '.' :: '0' :: 's' ::
        '\n' :: ' ' :: '└' :: '─' :: ' ' ::
          'B' :: ':' :: ' ' :: '1' :: '.' :: '5' :: 's' :: []) ≠
      ('P' :: ':' :: ' ' :: '2' :: '.' :: '0' :: 's' ::
        '\n' :: '├' :: '─' :: ' ' ::
          'A' :: ':' :: ' ' :: '1' :: '.' :: '0' :: 's' ::
        '\n' :: '└' :: '─' :: ' ' ::
          'B' :: ':' :: ' ' :: '1' :: '.' :: '5' :: 's' :: []) := by
  constructor
  · have h := reportChildren_closed (logA :: [])
      (('A' :: ':' :: ' ' :: '1' :: '.' :: '0' :: 's' :: []) :: []) logB
      ('B' :: ':' :: ' ' :: '1' :: '.' :: '5' :: 's' :: [])
      (List.Forall₂.cons logA_report List.Forall₂.nil) logB_report
    rw [List.cons_append, List.nil_append] at h
    unfold logP
    rw [Log.report, pyAverage_123, except_bind_ok, h, except_bind_ok, floatRepr3_two]
    exact congrArg Except.ok (by decide)
  · decide

/-- C9 amended: `report` renders `<name>: <average>s`, then every child but
the last behind the prefix `' ├─ '` (with a leading space) with its
newlines continued by `' │ '`, and the last child behind `' └─ '` (with a
leading space) with its newlines continued by two spaces; a log X with
samples 1.0, 2.0, 3.0 and no children renders exactly `X: 2.0s`. -/
theorem C9_report_rendering (name : List Char) (records : List ℚ) (avg : ℚ)
    (cs : List Log) (rs : List (List Char)) (clast : Log) (rlast : List Char)
    (havg : pyAverage records = Except.ok avg)
    (hcs : List.Forall₂ (fun c rc => Log.report c = Except.ok rc) cs rs)
    (hlast : Log.report clast = Except.ok rlast) :
    (Log.report (Log.mk name records (cs ++ clast :: [])) =
      Except.ok (name ++ ':' :: ' ' :: (floatRepr3 avg ++ 's' ::
        ((rs.map fun rc =>
            '\n' :: ' ' :: '├' :: '─' :: ' ' ::
              replaceNL rc ('\n' :: ' ' :: '│' :: ' ' :: [])).flatten ++
          '\n' :: ' ' :: '└' :: '─' :: ' ' ::
            replaceNL rlast ('\n' :: ' ' :: ' ' :: []))))) ∧
    Log.report (Log.mk ('X' :: []) (1 :: 2 :: 3 :: []) []) =
      Except.ok ('X' :: ':' :: ' ' :: '2' :: '.' :: '0' :: 's' :: []) := by
  constructor
  · rw [Log.report, havg, except_bind_ok,
      reportChildren_closed cs rs clast rlast hcs hlast, except_bind_ok]
    rfl
  · rw [report_nochildren ('X' :: []) (1 :: 2 :: 3 :: []) 2 pyAverage_123,
      floatRepr3_two]
    rfl

/-- Witness for C9 at log P: parent with samples 1,2,3 and children A
(one sample) and B (two samples). -/
theorem C9_report_rendering_witness :
    (Log.report (Log.mk ('P' :: []) (1 :: 2 :: 3 :: []) ((logA :: []) ++ logB :: [])) =
      Except.ok (('P' :: []) ++ ':' :: ' ' :: (floatRepr3 2 ++ 's' ::
        (((('A' :: ':' :: ' ' :: '1' :: '.' :: '0' :: 's' :: []) :: []).map fun rc => '\n' :: ' ' :: '├' :: '─' :: ' ' :: replaceNL rc ('\n' :: ' ' :: '│' :: ' ' :: [])).flatten ++ '\n' :: ' ' :: '└' :: '─' :: ' ' :: replaceNL ('B' :: ':' :: ' ' :: '1' :: '.' :: '5' :: 's' :: []) ('\n' :: ' ' :: ' ' :: []))))) ∧
    Log.report (Log.mk ('X' :: []) (1 :: 2 :: 3 :: []) []) =
      Except.ok ('X' :: ':' :: ' ' :: '2' :: '.' :: '0' :: 's' :: []) :=
  C9_report_rendering ('P' :: []) (1 :: 2 :: 3 :: []) 2 (logA :: [])
    (('A' :: ':' :: ' ' :: '1' :: '.' :: '0' :: 's' :: []) :: []) logB
    ('B' :: ':' :: ' ' :: '1' :: '.' :: '5' :: 's' :: [])
    pyAverage_123 (List.Forall₂.cons logA_report List.Forall₂.nil) logB_report

/-- Witness for C7 at the string with characters hash,1,a,2,b,3,c. -/
theorem C7_hex_roundtrip_witness :
    (∃ c2 : Color,
        Color.setHex ⟨9, 9, 9, 1⟩ ('#' :: '1' :: 'a' :: '2' :: 'b' :: '3' :: 'c' :: []) =
          Except.ok c2 ∧
        c2.toHex = '#' :: '1' :: 'a' :: '2' :: 'b' :: '3' :: 'c' :: []) ∧
    Color.setHex ⟨9, 9, 9, 1⟩ ('#' :: '0' :: 'f' :: '0' :: []) =
      Except.ok ⟨0, 255, 0, 1⟩ :=
  C7_hex_roundtrip ⟨9, 9, 9, 1⟩ '1' 'a' '2' 'b' '3' 'c'
    (by decide) (by decide) (by decide) (by decide) (by decide) (by decide)
